import Mathlib

/-!
# Verification of the libipt traced-memory image (`pt_image.c`)

This file gives a shallow embedding of the image subsystem of the
processor-trace library: the section list, insertion with overlap
resolution (`pt_image_add`), removal (`pt_image_remove`), the demand-map
read path with LRU promotion (`pt_image_read`, `pt_image_read_cold`),
cache pruning (`pt_image_prune_cache`) and the read-memory callback
fallback.  Machine integers are modelled as `Nat` with explicit
`% 2^64` (addresses) and `% 2^16` (residency counters) where the C code
can overflow.  The section layer (`pt_section.c`) and the ASID layer
(`pt_asid.c`, `pt_mapped_section.h`) are not part of the sources at
hand; they are modelled from the specification, with fallible
operations (`clone`, `map`, `unmap`) driven by explicit failure
schedules so that error paths of the image code are exercised.
-/

/-- The error codes of the library that the image subsystem uses. -/
inductive PtError where
  | internal
  | invalid
  | nomem
  | nomap
  | bad_image
  | bad_asid
  | eos
  | not_mapped
deriving DecidableEq, Repr

/-- An address-space identifier: a pair of 64-bit quantities, each with a
sentinel ("no value") represented here as `none`. -/
structure PtAsid where
  cr3 : Option Nat
  vmcs : Option Nat
deriving DecidableEq, Repr

/-- Modelled from the spec: a fully wildcarded ASID, as produced by
`pt_asid_init` (both fields hold the sentinel). -/
def ptAsidWild : PtAsid := ⟨none, none⟩

/-- Modelled from the spec: per-field ASID match; a sentinel on either
side is a wildcard, otherwise the values must be equal. -/
def ptAsidFieldMatch : Option Nat → Option Nat → Bool
  | none, _ => true
  | _, none => true
  | some a, some b => a == b

/-- Modelled from the spec: `pt_asid_match` — true iff for each field,
either side is the sentinel or the values are equal. -/
def pt_asid_match (l r : PtAsid) : Bool :=
  ptAsidFieldMatch l.cr3 r.cr3 && ptAsidFieldMatch l.vmcs r.vmcs

/-- A section: a file-backed byte range `(filename, offset, size)`.
`id` models the object identity (the C pointer); distinct allocations
receive distinct ids. -/
structure PtSection where
  id : Nat
  filename : String
  offset : Nat
  size : Nat
deriving DecidableEq, Repr

/-- A mapped section: an immutable binding of a section to
`(asid, vaddr)`.  Mirrors `struct pt_mapped_section`. -/
structure PtMappedSection where
  sec : PtSection
  asid : PtAsid
  vaddr : Nat
deriving DecidableEq, Repr

/-- An element of the image's section list: a mapped section plus the
`mapped` residency flag.  Mirrors `struct pt_section_list` (the list
structure itself is modelled as `List SectionEntry`). -/
structure SectionEntry where
  msec : PtMappedSection
  mapped : Bool
deriving DecidableEq, Repr

/-- The read-memory callback: `(len, asid, addr) ↦ bytes-read or error`.
The buffer and the opaque context pointer are folded into the closure. -/
def ReadMemCallback := Nat → PtAsid → Nat → Except PtError Nat

/-- The traced image.  Mirrors `struct pt_image`: an optional name, the
section list, the optional read-memory callback, the cache capacity
(16-bit, default 10) and the residency counter (16-bit). -/
structure PtImage where
  name : Option String
  sections : List SectionEntry
  readmem : Option ReadMemCallback
  cache : Nat
  mapped : Nat

/-- 2^64, the modulus of the C `uint64_t` arithmetic. -/
def u64 : Nat := 2 ^ 64

/-- 2^16, the modulus of the C `uint16_t` arithmetic. -/
def u16 : Nat := 2 ^ 16

/-- The mutable environment outside the image: per-section reference
counts (indexed by section id), a fresh-id counter, and failure
schedules for the fallible section operations.  A schedule is consumed
one element per call; `none` means the call succeeds, `some e` means it
fails with `e`; an exhausted schedule means success. -/
structure World where
  rc : Nat → Int
  nextId : Nat
  cloneFail : List (Option PtError)
  mapFail : List (Option PtError)
  unmapFail : List (Option PtError)

/-- Modelled from the spec: `pt_section_get` — take another reference on
the section (refcount increment). -/
def World.getSec (w : World) (s : PtSection) : World :=
  { w with rc := fun j => if j = s.id then w.rc j + 1 else w.rc j }

/-- Modelled from the spec: `pt_section_put` — drop a reference on the
section (refcount decrement; destruction at zero has no further
observable effect in this model). -/
def World.putSec (w : World) (s : PtSection) : World :=
  { w with rc := fun j => if j = s.id then w.rc j - 1 else w.rc j }

/-- Modelled from the spec: `pt_section_map`.  The outcome is drawn from
the `mapFail` schedule (file I/O may fail). -/
def World.sectionMap (w : World) (_s : PtSection) : World × Except PtError Unit :=
  match w.mapFail with
  | [] => (w, .ok ())
  | none :: rest => ({ w with mapFail := rest }, .ok ())
  | some e :: rest => ({ w with mapFail := rest }, .error e)

/-- Modelled from the spec: `pt_section_unmap`.  The outcome is drawn
from the `unmapFail` schedule (unmap may fail with an I/O error). -/
def World.sectionUnmap (w : World) (_s : PtSection) : World × Except PtError Unit :=
  match w.unmapFail with
  | [] => (w, .ok ())
  | none :: rest => ({ w with unmapFail := rest }, .ok ())
  | some e :: rest => ({ w with unmapFail := rest }, .error e)

/-- Modelled from the spec: `pt_section_clone` — a logically independent
section over a subrange of the parent's file range (the subrange
precondition is the caller's obligation).  A fresh id is allocated with
refcount 1; the outcome is drawn from the `cloneFail` schedule. -/
def World.sectionClone (w : World) (parent : PtSection) (offset size : Nat) :
    World × Except PtError PtSection :=
  match w.cloneFail with
  | some e :: rest => ({ w with cloneFail := rest }, .error e)
  | none :: rest =>
    ({ w with
       cloneFail := rest
       nextId := w.nextId + 1
       rc := fun j => if j = w.nextId then 1 else w.rc j },
     .ok ⟨w.nextId, parent.filename, offset, size⟩)
  | [] =>
    ({ w with
       nextId := w.nextId + 1
       rc := fun j => if j = w.nextId then 1 else w.rc j },
     .ok ⟨w.nextId, parent.filename, offset, size⟩)

/-- Modelled from the spec: `pt_mk_section` — construct a section with
refcount 1; a zero size is rejected (`make` returns no section). -/
def pt_mk_section (w : World) (filename : String) (offset size : Nat) :
    World × Option PtSection :=
  if size = 0 then (w, none)
  else
    ({ w with
       nextId := w.nextId + 1
       rc := fun j => if j = w.nextId then 1 else w.rc j },
     some ⟨w.nextId, filename, offset, size⟩)

/-- Modelled from the spec: `pt_msec_init` — store the triple; an absent
ASID is replaced by the fully wildcarded ASID (`pt_asid_init`). -/
def pt_msec_init (sec : PtSection) (asid : Option PtAsid) (vaddr : Nat) :
    PtMappedSection :=
  ⟨sec, asid.getD ptAsidWild, vaddr⟩

/-- Modelled from the spec: `pt_msec_begin` — the first virtual address
of the mapped section. -/
def pt_msec_begin (msec : PtMappedSection) : Nat := msec.vaddr

/-- Modelled from the spec: `pt_msec_end` — one past the last virtual
address; 64-bit addition (may wrap). -/
def pt_msec_end (msec : PtMappedSection) : Nat :=
  (msec.vaddr + msec.sec.size) % u64

/-- Modelled from the spec: `pt_msec_asid` — the stored ASID. -/
def pt_msec_asid (msec : PtMappedSection) : PtAsid := msec.asid

/-- Modelled from the spec: `pt_msec_matches_asid` delegates to the ASID
match relation, which is defined only for present ASIDs (a null ASID is
a precondition violation reported defensively as `Internal`). -/
def pt_msec_matches_asid (msec : PtMappedSection) (asid : Option PtAsid) :
    Except PtError Bool :=
  match asid with
  | none => .error .internal
  | some a => .ok (pt_asid_match msec.asid a)

/-- Modelled from the spec: `pt_msec_read_mapped` — requires a matching
ASID and `begin ≤ addr < end`, else `NoMap`; on success returns
`min len (end − addr)` bytes.  (The `NotMapped` lifecycle error cannot
arise here: the image maps a section before reading it.) -/
def pt_msec_read_mapped (msec : PtMappedSection) (size : Nat) (a : PtAsid)
    (addr : Nat) : Except PtError Nat :=
  if pt_asid_match msec.asid a = false then .error .nomap
  else if addr < pt_msec_begin msec ∨ pt_msec_end msec ≤ addr then .error .nomap
  else .ok (min size (pt_msec_end msec - addr))

/-- `pt_mk_section_list`: materialize a list entry for `(section, asid,
vaddr)`; takes a reference on the section; the entry starts unmapped. -/
def pt_mk_section_list (w : World) (sec : PtSection) (asid : Option PtAsid)
    (vaddr : Nat) : World × SectionEntry :=
  (w.getSec sec, ⟨pt_msec_init sec asid vaddr, false⟩)

/-- `pt_section_list_free`: unmap if the entry is mapped (ignoring any
unmap error) and drop the entry's section reference. -/
def pt_section_list_free (w : World) (e : SectionEntry) : World :=
  let w1 := if e.mapped then (w.sectionUnmap e.msec.sec).1 else w
  w1.putSec e.msec.sec

/-- `pt_section_list_free_tail`: free a whole chain, head first. -/
def pt_section_list_free_tail (w : World) (l : List SectionEntry) : World :=
  l.foldl pt_section_list_free w

/-- `pt_image_init`: zeroed state, duplicated name, cache capacity 10. -/
def pt_image_init (name : Option String) : PtImage :=
  { name := name, sections := [], readmem := none, cache := 10, mapped := 0 }

/-- `pt_image_clone`: clone the part `[bgn, fin)` of `msec` into a fresh
section wrapped in a fresh (unmapped) entry pushed onto the pending
list.  Mirrors the source including its defensive range checks. -/
def pt_image_clone (w : World) (pending : List SectionEntry)
    (msec : PtMappedSection) (bgn fin : Nat) :
    World × List SectionEntry × Except PtError Unit :=
  let sec := msec.sec
  let mbegin := pt_msec_begin msec
  let sbegin := sec.offset
  if fin ≤ bgn then (w, pending, .error .internal)
  else if bgn < mbegin then (w, pending, .error .internal)
  else
    let offset := bgn - mbegin
    let size := fin - bgn
    match w.sectionClone sec ((sbegin + offset) % u64) size with
    | (w1, .error e) => (w1, pending, .error e)
    | (w1, .ok nsec) =>
      let (w2, entry) := pt_mk_section_list w1 nsec (some (pt_msec_asid msec)) bgn
      let w3 := w2.putSec nsec
      (w3, entry :: pending, .ok ())

/-- The overlap walk of `pt_image_add`: traverse the list, keeping
non-overlapping entries, deduplicating an identical overlap, detaching
overlapped entries onto `removed` (unmapping them), and pushing clone
remainders onto `pending`.  On error the pending chain is freed and the
removed entries are re-appended at the tail; on success the removed
entries are freed and the pending chain is spliced at the tail. -/
def addWalk (asid : Option PtAsid) (fname : String) (bgn fin : Nat) :
    World → List SectionEntry → List SectionEntry → List SectionEntry →
    List SectionEntry → World × List SectionEntry × Except PtError Unit
  | w, kept, [], pending, removed =>
    (pt_section_list_free_tail w removed, kept ++ pending, .ok ())
  | w, kept, current :: rest, pending, removed =>
    match pt_msec_matches_asid current.msec asid with
    | .error e =>
      (pt_section_list_free_tail w pending,
       kept ++ (current :: rest) ++ removed, .error e)
    | .ok false => addWalk asid fname bgn fin w (kept ++ [current]) rest pending removed
    | .ok true =>
      let lbegin := pt_msec_begin current.msec
      let lend := pt_msec_end current.msec
      if fin ≤ lbegin ∨ lend ≤ bgn then
        addWalk asid fname bgn fin w (kept ++ [current]) rest pending removed
      else if bgn = lbegin ∧ fin = lend ∧ fname = current.msec.sec.filename then
        if removed ≠ [] ∨ pending.length ≠ 1 then
          (pt_section_list_free_tail w pending,
           kept ++ (current :: rest) ++ removed, .error .internal)
        else
          (pt_section_list_free_tail w pending, kept ++ (current :: rest), .ok ())
      else
        let w1 := if current.mapped then (w.sectionUnmap current.msec.sec).1 else w
        let removed1 := { current with mapped := false } :: removed
        match (if lbegin < bgn then pt_image_clone w1 pending current.msec lbegin bgn
               else (w1, pending, .ok ())) with
        | (w2, pending2, .error e) =>
          (pt_section_list_free_tail w2 pending2, kept ++ rest ++ removed1, .error e)
        | (w2, pending2, .ok _) =>
          match (if fin < lend then pt_image_clone w2 pending2 current.msec fin lend
                 else (w2, pending2, .ok ())) with
          | (w3, pending3, .error e) =>
            (pt_section_list_free_tail w3 pending3, kept ++ rest ++ removed1, .error e)
          | (w3, pending3, .ok _) =>
            addWalk asid fname bgn fin w3 kept rest pending3 removed1

/-- `pt_image_add` on non-null image and section: materialize the new
entry, run the overlap walk, and install the resulting list. -/
def pt_image_add_core (w : World) (img : PtImage) (sec : PtSection)
    (asid : Option PtAsid) (vaddr : Nat) :
    World × PtImage × Except PtError Unit :=
  let (w1, next) := pt_mk_section_list w sec asid vaddr
  let bgn := vaddr
  let fin := (vaddr + sec.size) % u64
  let (w2, secs, res) := addWalk asid sec.filename bgn fin w1 [] img.sections [next] []
  (w2, { img with sections := secs }, res)

/-- `pt_image_add` with the source's null-pointer guard: a null image or
section is rejected with `Internal`; a null ASID is not checked here. -/
def pt_image_add (w : World) (img : Option PtImage) (sec : Option PtSection)
    (asid : Option PtAsid) (vaddr : Nat) :
    World × Option PtImage × Except PtError Unit :=
  match img, sec with
  | some i, some s =>
    let (w1, i1, r) := pt_image_add_core w i s asid vaddr
    (w1, some i1, r)
  | i, _ => (w, i, .error .internal)

/-- The scan of `pt_image_remove`: skip entries whose ASID does not
match; remove the first entry whose section pointer and vaddr both
match; `BadImage` when the list is exhausted. -/
def removeLoop (sec : PtSection) (asid : Option PtAsid) (vaddr : Nat) :
    World → List SectionEntry → List SectionEntry →
    World × List SectionEntry × Except PtError Unit
  | w, kept, [] => (w, kept, .error .bad_image)
  | w, kept, e :: rest =>
    match pt_msec_matches_asid e.msec asid with
    | .error er => (w, kept ++ e :: rest, .error er)
    | .ok false => removeLoop sec asid vaddr w (kept ++ [e]) rest
    | .ok true =>
      if e.msec.sec.id = sec.id ∧ e.msec.vaddr = vaddr then
        (pt_section_list_free w e, kept ++ rest, .ok ())
      else removeLoop sec asid vaddr w (kept ++ [e]) rest

/-- `pt_image_remove` (on a non-null image and section; the pointer
comparison `msec->section == section` is modelled as id equality). -/
def pt_image_remove (w : World) (img : PtImage) (sec : PtSection)
    (asid : Option PtAsid) (vaddr : Nat) :
    World × PtImage × Except PtError Unit :=
  let (w1, secs, r) := removeLoop sec asid vaddr w [] img.sections
  (w1, { img with sections := secs }, r)

/-- Modelled from the spec: `pt_asid_from_user` — an absent user ASID
becomes the fully wildcarded ASID (the oversized-struct rejection has no
counterpart in this model, which carries no size field). -/
def pt_asid_from_user (uasid : Option PtAsid) : Except PtError PtAsid :=
  .ok (uasid.getD ptAsidWild)

/-- `pt_image_add_file`: construct a section, add it, drop the local
reference (also on failure of the add). -/
def pt_image_add_file (w : World) (img : PtImage) (filename : String)
    (offset size : Nat) (uasid : Option PtAsid) (vaddr : Nat) :
    World × PtImage × Except PtError Unit :=
  match pt_asid_from_user uasid with
  | .error e => (w, img, .error e)
  | .ok asid =>
    match pt_mk_section w filename offset size with
    | (w1, none) => (w1, img, .error .invalid)
    | (w1, some sec) =>
      let (w2, img1, r) := pt_image_add_core w1 img sec (some asid) vaddr
      match r with
      | .error e => (w2.putSec sec, img1, .error e)
      | .ok _ => (w2.putSec sec, img1, .ok ())

/-- The scan of `pt_image_prune_cache`: count mapped entries in list
order (16-bit counter); unmap every mapped entry beyond the capacity,
overwriting the remembered status on each unmap failure and continuing. -/
def pruneLoop (cache : Nat) :
    World → List SectionEntry → List SectionEntry → Nat → Option PtError →
    World × List SectionEntry × Nat × Option PtError
  | w, acc, [], cnt, st => (w, acc, cnt, st)
  | w, acc, e :: rest, cnt, st =>
    if e.mapped = false then pruneLoop cache w (acc ++ [e]) rest cnt st
    else
      let cnt1 := (cnt + 1) % u16
      if cnt1 ≤ cache then pruneLoop cache w (acc ++ [e]) rest cnt1 st
      else
        match w.sectionUnmap e.msec.sec with
        | (w1, .error er) => pruneLoop cache w1 (acc ++ [e]) rest cnt1 (some er)
        | (w1, .ok _) =>
          pruneLoop cache w1 (acc ++ [{ e with mapped := false }]) rest
            ((cnt1 + (u16 - 1)) % u16) st

/-- `pt_image_prune_cache`: full scan, then store the final residency
count and report the remembered unmap error, if any. -/
def pt_image_prune_cache (w : World) (img : PtImage) :
    World × PtImage × Except PtError Unit :=
  let (w1, secs, cnt, st) := pruneLoop img.cache w [] img.sections 0 none
  (w1, { img with sections := secs, mapped := cnt },
   match st with
   | some e => .error e
   | none => .ok ())

/-- `pt_image_read_callback`: invoke the user callback, or `NoMap` when
none is installed. -/
def pt_image_read_callback (img : PtImage) (size : Nat) (a : PtAsid)
    (addr : Nat) : Except PtError Nat :=
  match img.readmem with
  | none => .error .nomap
  | some cb => cb size a addr

/-- The scan of `pt_image_read_cold`: from the cold boundary on, map the
entry if needed (a map error aborts the read), try the mapped read, and
on success promote the entry to the head; a freshly mapped entry is kept
mapped when caching is enabled (pruning when over capacity) and unmapped
otherwise.  `pre ++ rest` is the current section list; `pre` is the part
already scanned. -/
def pt_image_read_cold (size : Nat) (a : PtAsid) (addr : Nat) :
    World → PtImage → List SectionEntry → List SectionEntry →
    World × PtImage × Except PtError Nat
  | w, img, pre, [] =>
    (w, { img with sections := pre }, pt_image_read_callback img size a addr)
  | w, img, pre, elem :: post =>
    let wasMapped := elem.mapped
    let (w1, mres) := if wasMapped then (w, .ok ()) else w.sectionMap elem.msec.sec
    match mres with
    | .error e => (w1, { img with sections := pre ++ elem :: post }, .error e)
    | .ok _ =>
      match pt_msec_read_mapped elem.msec size a addr with
      | .error _ =>
        let (w2, ures) := if wasMapped then (w1, .ok ()) else w1.sectionUnmap elem.msec.sec
        match ures with
        | .error e => (w2, { img with sections := pre ++ elem :: post }, .error e)
        | .ok _ => pt_image_read_cold size a addr w2 img (pre ++ [elem]) post
      | .ok n =>
        if wasMapped then
          (w1, { img with sections := elem :: (pre ++ post) }, .ok n)
        else if img.cache ≠ 0 then
          let elem1 := { elem with mapped := true }
          let already := (img.mapped + 1) % u16
          let img1 := { img with sections := elem1 :: (pre ++ post), mapped := already }
          if img.cache < already then
            let (w2, img2, pres) := pt_image_prune_cache w1 img1
            match pres with
            | .error e => (w2, img2, .error e)
            | .ok _ => (w2, img2, .ok n)
          else (w1, img1, .ok n)
        else
          match w1.sectionUnmap elem.msec.sec with
          | (w2, .error e) => (w2, { img with sections := elem :: (pre ++ post) }, .error e)
          | (w2, .ok _) => (w2, { img with sections := elem :: (pre ++ post) }, .ok n)

/-- The hot scan of `pt_image_read`: walk mapped entries from the head,
promoting a successful read to the head; stop at the first unmapped
entry (the cold boundary) and fall through to the cold scan. -/
def pt_image_read_hot (size : Nat) (a : PtAsid) (addr : Nat) :
    World → PtImage → List SectionEntry → List SectionEntry →
    World × PtImage × Except PtError Nat
  | w, img, pre, [] => pt_image_read_cold size a addr w img pre []
  | w, img, pre, elem :: post =>
    if elem.mapped = false then pt_image_read_cold size a addr w img pre (elem :: post)
    else
      match pt_msec_read_mapped elem.msec size a addr with
      | .error _ => pt_image_read_hot size a addr w img (pre ++ [elem]) post
      | .ok n => (w, { img with sections := elem :: (pre ++ post) }, .ok n)

/-- `pt_image_read`: null-ASID guard, hot scan, cold scan, callback
fallback. -/
def pt_image_read (w : World) (img : PtImage) (size : Nat)
    (asid : Option PtAsid) (addr : Nat) :
    World × PtImage × Except PtError Nat :=
  match asid with
  | none => (w, img, .error .internal)
  | some a => pt_image_read_hot size a addr w img [] img.sections

instance {ε α : Type _} [DecidableEq ε] [DecidableEq α] : DecidableEq (Except ε α) :=
  fun a b =>
    match a, b with
    | .ok x, .ok y => if h : x = y then .isTrue (by simp [h]) else .isFalse (by simp [h])
    | .error x, .error y => if h : x = y then .isTrue (by simp [h]) else .isFalse (by simp [h])
    | .ok _, .error _ => .isFalse (by simp)
    | .error _, .ok _ => .isFalse (by simp)

/-- A world with no references, fresh ids from 100, and all-success
failure schedules. -/
def w0 : World := ⟨fun _ => 0, 100, [], [], []⟩

/-- The number of entries whose `mapped` flag is set. -/
def countMapped (l : List SectionEntry) : Nat := l.countP (·.mapped)

/-- The residency invariant: the image's counter equals the number of
mapped entries (as a 16-bit quantity). -/
def InvR (img : PtImage) : Prop := img.mapped = countMapped img.sections % u16

/-! ## Concrete scenarios -/

/-- A concrete, fully specified ASID used by the concrete scenarios. -/
def asidC : PtAsid := ⟨some 1, some 1⟩

/-- Scenario: `add_file("/a", 0, 0x1000, asid0, 0x10000)` on a fresh image. -/
def splitStep1 : World × PtImage × Except PtError Unit :=
  pt_image_add_file w0 (pt_image_init (some "image")) "/a" 0 0x1000 (some asidC) 0x10000

/-- Scenario: the follow-up `add_file("/b", 0, 0x100, asid0, 0x10400)`. -/
def splitStep2 : World × PtImage × Except PtError Unit :=
  pt_image_add_file splitStep1.1 splitStep1.2.1 "/b" 0 0x100 (some asidC) 0x10400

/-- C3: overlap split.  From an empty image, adding `/a` (file range
`[0, 0x1000)`) at `0x10000` and then `/b` (`[0, 0x100)`) at `0x10400`
both succeed and leave exactly three entries: the `/a` slice
`[0x500, 0x1000)` at `0x10500`, the `/a` slice `[0, 0x400)` at
`0x10000`, and the full `/b` section at `0x10400` (the concrete list
order produced by the tail splice; the claim allows any order). -/
theorem overlap_split_scenario :
    splitStep1.2.2 = .ok () ∧ splitStep2.2.2 = .ok () ∧
    splitStep2.2.1.sections =
      [⟨⟨⟨103, "/a", 0x500, 0xB00⟩, asidC, 0x10500⟩, false⟩,
       ⟨⟨⟨102, "/a", 0, 0x400⟩, asidC, 0x10000⟩, false⟩,
       ⟨⟨⟨101, "/b", 0, 0x100⟩, asidC, 0x10400⟩, false⟩] :=
  ⟨rfl, rfl, rfl⟩

/-- An image with cache capacity 2, as set up by the LRU scenario. -/
def lruImg0 : PtImage := { pt_image_init (some "image") with cache := 2 }

/-- The LRU scenario after adding the three disjoint 16-byte sections. -/
def lruAdds : World × PtImage × Except PtError Unit :=
  let r0 := pt_image_add_core w0 lruImg0 ⟨0, "/s0", 0, 16⟩ (some asidC) 0x1000
  let r1 := pt_image_add_core r0.1 r0.2.1 ⟨1, "/s1", 0, 16⟩ (some asidC) 0x2000
  pt_image_add_core r1.1 r1.2.1 ⟨2, "/s2", 0, 16⟩ (some asidC) 0x3000

/-- The LRU scenario after the three reads (`s0`, then `s1`, then `s2`). -/
def lruReads : World × PtImage × Except PtError Nat :=
  let r1 := pt_image_read lruAdds.1 lruAdds.2.1 4 (some asidC) 0x1000
  let r2 := pt_image_read r1.1 r1.2.1 4 (some asidC) 0x2000
  pt_image_read r2.1 r2.2.1 4 (some asidC) 0x3000

/-- C5: LRU promotion and pruning.  With cache capacity 2 and three
disjoint 16-byte sections added to an empty image, reading from `s0`,
`s1`, then `s2` leaves residency `R = 2`, the `s0` entry unmapped, and
the `s2` entry at the head of the list (full final list shown). -/
theorem lru_promotion_prune_scenario :
    lruReads.2.2 = .ok 4 ∧ lruReads.2.1.mapped = 2 ∧
    lruReads.2.1.sections =
      [⟨⟨⟨2, "/s2", 0, 16⟩, asidC, 0x3000⟩, true⟩,
       ⟨⟨⟨1, "/s1", 0, 16⟩, asidC, 0x2000⟩, true⟩,
       ⟨⟨⟨0, "/s0", 0, 16⟩, asidC, 0x1000⟩, false⟩] :=
  ⟨rfl, rfl, rfl⟩

/-! ## Counterexample states -/

/-- An image holding one mapped entry over `[0x1000, 0x2000)` with
residency counter 1. -/
def oneMappedImg : PtImage :=
  { name := none
    sections := [⟨⟨⟨20, "/x", 0, 0x1000⟩, asidC, 0x1000⟩, true⟩]
    readmem := none
    cache := 10
    mapped := 1 }

/-- The failed add: a section over `[0x1400, 0x1800)` forces a left
clone of the overlapped entry, and the clone is made to fail. -/
def failedAdd : World × PtImage × Except PtError Unit :=
  pt_image_add_core { w0 with cloneFail := [some .nomem] } oneMappedImg
    ⟨21, "/y", 0, 0x400⟩ (some asidC) 0x1400

/-- C1 counterexample: `pt_image_add` is not transactional in the strict
sense.  The add fails with `NoMem`, yet the image is not exactly as it
was before the call: the overlapped entry was re-inserted with its
`mapped` flag cleared (the residency counter, untouched by `add`, still
reads 1). -/
theorem add_failure_mutates_image :
    failedAdd.2.2 = .error .nomem ∧
    failedAdd.2.1.sections =
      [⟨⟨⟨20, "/x", 0, 0x1000⟩, asidC, 0x1000⟩, false⟩] ∧
    failedAdd.2.1.sections ≠ oneMappedImg.sections ∧
    failedAdd.2.1.mapped = 1 :=
  ⟨rfl, rfl, by decide, rfl⟩

/-- The residency-desync run: add a section, read it (demand-mapping
it), then add an overlapping section, which removes and frees the mapped
entry without touching the residency counter. -/
def residencyRun : World × PtImage × Except PtError Unit :=
  let r0 := pt_image_add_core w0 (pt_image_init (some "image"))
    ⟨10, "/a", 0, 0x10⟩ (some asidC) 0x1000
  let r1 := pt_image_read r0.1 r0.2.1 4 (some asidC) 0x1000
  pt_image_add_core r1.1 r1.2.1 ⟨11, "/b", 0, 0x20⟩ (some asidC) 0x1000

/-- C2 counterexample: the residency equality `R = |{e : e.mapped}|`
does not hold in every reachable state.  After `init`, `add`, a
successful `read` (which maps the entry, `R = 1`) and a second
successful `add` that removes the mapped entry, the counter still reads
1 while no entry is mapped. -/
theorem residency_desync_after_add :
    residencyRun.2.2 = .ok () ∧
    residencyRun.2.1.mapped = 1 ∧
    countMapped residencyRun.2.1.sections = 0 :=
  ⟨rfl, rfl, rfl⟩

/-- A pruning state: four mapped entries, capacity 1, with the first two
unmap attempts failing with distinct errors (`NoMap`, then `Internal`)
and the third succeeding. -/
def pruneRun : World × PtImage × Except PtError Unit :=
  pt_image_prune_cache { w0 with unmapFail := [some .nomap, some .internal, none] }
    { name := none
      sections :=
        [⟨⟨⟨30, "/e0", 0, 16⟩, asidC, 0x1000⟩, true⟩,
         ⟨⟨⟨31, "/e1", 0, 16⟩, asidC, 0x2000⟩, true⟩,
         ⟨⟨⟨32, "/e2", 0, 16⟩, asidC, 0x3000⟩, true⟩,
         ⟨⟨⟨33, "/e3", 0, 16⟩, asidC, 0x4000⟩, true⟩]
      readmem := none
      cache := 1
      mapped := 99 }

/-- C6 counterexample: with two distinct unmap failures (`NoMap` first,
then `Internal`), pruning keeps going (the fourth entry is still
unmapped) and returns the LAST error, `Internal` — not the first,
`NoMap`, as the claim states. -/
theorem prune_first_error_cex :
    pruneRun.2.2 = .error .internal ∧
    pruneRun.2.2 ≠ .error .nomap ∧
    pruneRun.2.1.sections.map (fun e => (e.msec.sec.id, e.mapped)) =
      [(30, true), (31, true), (32, true), (33, false)] ∧
    pruneRun.2.1.mapped = 3 :=
  ⟨rfl, by decide, rfl, rfl⟩

/-- A read whose only candidate entry needs mapping, with the map made
to fail, on an image whose callback would return 99 bytes. -/
def mapFailRead : World × PtImage × Except PtError Nat :=
  pt_image_read { w0 with mapFail := [some .nomem] }
    { name := none
      sections := [⟨⟨⟨40, "/c", 0, 16⟩, asidC, 0x100⟩, false⟩]
      readmem := some (fun _ _ _ => .ok 99)
      cache := 10
      mapped := 0 }
    4 (some asidC) 0x100

/-- C8 counterexample: a read in which no section entry yields a
successful read does NOT always fall back to the installed callback: a
`pt_section_map` failure is returned directly, bypassing the callback
(which would have returned 99). -/
theorem callback_fallback_cex :
    mapFailRead.2.2 = .error .nomem ∧ mapFailRead.2.2 ≠ .ok 99 :=
  ⟨rfl, by decide⟩

/-- An add with a null ASID on an image that already holds an entry. -/
def nullAsidAdd : World × Option PtImage × Except PtError Unit :=
  pt_image_add w0 (some oneMappedImg) (some ⟨22, "/z", 0, 16⟩) none 0x9000

/-- The same add with a concrete ASID, for contrast. -/
def concreteAsidAdd : World × Option PtImage × Except PtError Unit :=
  pt_image_add w0 (some oneMappedImg) (some ⟨22, "/z", 0, 16⟩) (some asidC) 0x9000

/-- C10 counterexample: on a NON-empty image, `add` with a null ASID IS
rejected with `Internal` — the per-entry ASID match reports the null
ASID — while the identical add with a concrete ASID succeeds.  So "for
every valid image and section, add with a NULL asid is not rejected with
Internal" is false. -/
theorem null_asid_cex :
    nullAsidAdd.2.2 = .error .internal ∧
    concreteAsidAdd.2.2 = .ok () :=
  ⟨rfl, rfl⟩
/-! ## Removal: specification twin and equivalence -/

/-- Specification of removal, following the claim's words: delete the
first entry whose section pointer, vaddr and ASID all match; report
`BadImage` (leaving the list unchanged) when there is none. -/
def removeFirstMatch (sec : PtSection) (a : PtAsid) (vaddr : Nat) :
    List SectionEntry → List SectionEntry × Except PtError Unit
  | [] => ([], .error .bad_image)
  | e :: rest =>
    if pt_asid_match e.msec.asid a ∧ e.msec.sec.id = sec.id ∧ e.msec.vaddr = vaddr then
      (rest, .ok ())
    else
      let r := removeFirstMatch sec a vaddr rest
      (e :: r.1, r.2)

theorem removeLoop_spec (sec : PtSection) (a : PtAsid) (vaddr : Nat) :
    ∀ (rest : List SectionEntry) (w : World) (kept : List SectionEntry),
      (removeLoop sec (some a) vaddr w kept rest).2.1 =
        kept ++ (removeFirstMatch sec a vaddr rest).1 ∧
      (removeLoop sec (some a) vaddr w kept rest).2.2 =
        (removeFirstMatch sec a vaddr rest).2
  | [], w, kept => by simp [removeLoop, removeFirstMatch]
  | e :: rest, w, kept => by
    have ih := removeLoop_spec sec a vaddr rest w (kept ++ [e])
    simp only [removeLoop, removeFirstMatch, pt_msec_matches_asid]
    by_cases hm : pt_asid_match e.msec.asid a = true
    · by_cases hid : e.msec.sec.id = sec.id ∧ e.msec.vaddr = vaddr
      · simp [hm, hid]
      · simp [hm, hid, ih.1, ih.2]
    · have hm2 : pt_asid_match e.msec.asid a = false := by
        simpa using hm
      simp [hm2, ih.1, ih.2]

theorem removeFirstMatch_not_found (sec : PtSection) (a : PtAsid) (vaddr : Nat) :
    ∀ (l : List SectionEntry),
      (l.all fun e => !(pt_asid_match e.msec.asid a && e.msec.sec.id == sec.id &&
        e.msec.vaddr == vaddr)) = true →
      removeFirstMatch sec a vaddr l = (l, .error .bad_image)
  | [], _ => rfl
  | e :: rest, h => by
    simp only [List.all_cons, Bool.and_eq_true, Bool.not_eq_true'] at h
    have h2 := removeFirstMatch_not_found sec a vaddr rest (by simpa using h.2)
    simp only [removeFirstMatch]
    rw [if_neg]
    · simp [h2]
    · intro hc
      obtain ⟨hma, hid, hv⟩ := hc
      simp [hma, hid, hv] at h

/-- C7: `pt_image_remove` removes exactly the first entry (in list
order) whose section pointer, vaddr, and ASID all match, returning
success; when no entry satisfies all three conditions it returns
`BadImage` with the image unchanged; at most one entry is removed per
call (the behaviour coincides with the one-deletion specification
`removeFirstMatch`). -/
theorem remove_first_match (w : World) (img : PtImage) (sec : PtSection)
    (a : PtAsid) (vaddr : Nat) :
    (pt_image_remove w img sec (some a) vaddr).2.1.sections =
      (removeFirstMatch sec a vaddr img.sections).1 ∧
    (pt_image_remove w img sec (some a) vaddr).2.2 =
      (removeFirstMatch sec a vaddr img.sections).2 ∧
    ((img.sections.all fun e => !(pt_asid_match e.msec.asid a &&
        e.msec.sec.id == sec.id && e.msec.vaddr == vaddr)) = true →
      (pt_image_remove w img sec (some a) vaddr).2.1.sections = img.sections ∧
      (pt_image_remove w img sec (some a) vaddr).2.2 = .error .bad_image) := by
  have h := removeLoop_spec sec a vaddr img.sections w []
  have e1 : (pt_image_remove w img sec (some a) vaddr).2.1.sections =
      (removeFirstMatch sec a vaddr img.sections).1 := by
    simpa [pt_image_remove] using h.1
  have e2 : (pt_image_remove w img sec (some a) vaddr).2.2 =
      (removeFirstMatch sec a vaddr img.sections).2 := by
    simpa [pt_image_remove] using h.2
  refine ⟨e1, e2, fun hnone => ?_⟩
  have hnf := removeFirstMatch_not_found sec a vaddr img.sections hnone
  rw [e1, e2, hnf]
  exact ⟨rfl, rfl⟩

/-- A one-entry image used to witness the removal theorem. -/
def removeWitnessImg : PtImage :=
  { name := none
    sections := [⟨⟨⟨50, "/r", 0, 16⟩, asidC, 0x100⟩, false⟩]
    readmem := none
    cache := 10
    mapped := 0 }

/-- C7 witness: on a concrete image containing no entry for the given
section, `remove` leaves the image unchanged and reports `BadImage`. -/
theorem remove_first_match_witness :
    (pt_image_remove w0 removeWitnessImg ⟨51, "/q", 0, 16⟩ (some asidC) 0x100).2.1.sections =
      removeWitnessImg.sections ∧
    (pt_image_remove w0 removeWitnessImg ⟨51, "/q", 0, 16⟩ (some asidC) 0x100).2.2 =
      .error .bad_image :=
  (remove_first_match w0 removeWitnessImg ⟨51, "/q", 0, 16⟩ asidC 0x100).2.2 (by decide)

/-! ## Null-pointer guard of `pt_image_add` -/

/-- C10 (amended): the null guard of `pt_image_add` rejects a null image
or section with `Internal` but does not check the ASID.  With a null
ASID the entry is still materialized and, on an image with no entries,
the add succeeds and installs the entry under the wildcard ASID —
contradicting the header's documented `-pte_internal`.  On a non-empty
image, however, the per-entry ASID match rejects the null ASID with
`Internal`. -/
theorem null_asid_guard_amended :
    (∀ (w : World) (sec : Option PtSection) (asid : Option PtAsid) (vaddr : Nat),
      (pt_image_add w none sec asid vaddr).2.2 = .error .internal) ∧
    (∀ (w : World) (img : PtImage) (asid : Option PtAsid) (vaddr : Nat),
      (pt_image_add w (some img) none asid vaddr).2.2 = .error .internal) ∧
    (∀ (w : World) (img : PtImage) (sec : PtSection) (vaddr : Nat),
      img.sections = [] →
      (pt_image_add w (some img) (some sec) none vaddr).2.2 = .ok () ∧
      (pt_image_add w (some img) (some sec) none vaddr).2.1 =
        some { img with sections := [⟨⟨sec, ptAsidWild, vaddr⟩, false⟩] }) ∧
    (∀ (w : World) (img : PtImage) (sec : PtSection) (vaddr : Nat)
      (e : SectionEntry) (rest : List SectionEntry),
      img.sections = e :: rest →
      (pt_image_add w (some img) (some sec) none vaddr).2.2 = .error .internal) := by
  refine ⟨?_, ?_, ?_, ?_⟩
  · intro w sec asid vaddr
    cases sec <;> rfl
  · intro w img asid vaddr
    rfl
  · intro w img sec vaddr h
    obtain ⟨n, s, rm, c, m⟩ := img
    simp only at h
    subst h
    exact ⟨rfl, rfl⟩
  · intro w img sec vaddr e rest h
    obtain ⟨n, s, rm, c, m⟩ := img
    simp only at h
    subst h
    rfl

/-- C10 witness: concrete instances of the amended statement — the add
with a null ASID on a concrete empty image succeeds and creates the
wildcard entry, and on a concrete one-entry image it is rejected. -/
theorem null_asid_guard_witness :
    (pt_image_add w0 (some (pt_image_init none)) (some ⟨22, "/z", 0, 16⟩) none 0x9000).2.2 =
      .ok () ∧
    (pt_image_add w0 (some oneMappedImg) (some ⟨22, "/z", 0, 16⟩) none 0x9000).2.2 =
      .error .internal :=
  ⟨(null_asid_guard_amended.2.2.1 w0 (pt_image_init none) ⟨22, "/z", 0, 16⟩ 0x9000 rfl).1,
   null_asid_guard_amended.2.2.2 w0 oneMappedImg ⟨22, "/z", 0, 16⟩ 0x9000
     ⟨⟨⟨20, "/x", 0, 0x1000⟩, asidC, 0x1000⟩, true⟩ [] rfl⟩

/-! ## Callback fallback -/

theorem read_cold_allfail (size : Nat) (a : PtAsid) (addr : Nat) :
    ∀ (rest : List SectionEntry) (w : World) (img : PtImage) (pre : List SectionEntry),
      w.mapFail = [] → w.unmapFail = [] →
      (∀ e ∈ rest, pt_msec_read_mapped e.msec size a addr = .error .nomap) →
      pt_image_read_cold size a addr w img pre rest =
        (w, { img with sections := pre ++ rest },
         pt_image_read_callback img size a addr)
  | [], w, img, pre, hm, hu, hr => by
    simp [pt_image_read_cold]
  | elem :: post, w, img, pre, hm, hu, hr => by
    have hfail := hr elem (List.mem_cons_self _ _)
    have ih := read_cold_allfail size a addr post w img (pre ++ [elem]) hm hu
      (fun e he => hr e (List.mem_cons_of_mem _ he))
    simp only [pt_image_read_cold]
    cases hmap : elem.mapped with
    | true =>
      simp [hmap, hfail, ih]
    | false =>
      have hsm : w.sectionMap elem.msec.sec = (w, .ok ()) := by
        simp [World.sectionMap, hm]
      have hsu : w.sectionUnmap elem.msec.sec = (w, .ok ()) := by
        simp [World.sectionUnmap, hu]
      simp [hmap, hsm, hfail, hsu, ih]

theorem read_hot_allfail (size : Nat) (a : PtAsid) (addr : Nat) :
    ∀ (rest : List SectionEntry) (w : World) (img : PtImage) (pre : List SectionEntry),
      w.mapFail = [] → w.unmapFail = [] →
      (∀ e ∈ rest, pt_msec_read_mapped e.msec size a addr = .error .nomap) →
      pt_image_read_hot size a addr w img pre rest =
        (w, { img with sections := pre ++ rest },
         pt_image_read_callback img size a addr)
  | [], w, img, pre, hm, hu, hr => by
    simp only [pt_image_read_hot]
    exact read_cold_allfail size a addr [] w img pre hm hu hr
  | elem :: post, w, img, pre, hm, hu, hr => by
    have hfail := hr elem (List.mem_cons_self _ _)
    simp only [pt_image_read_hot]
    cases hmap : elem.mapped with
    | false =>
      simp only [hmap]
      simpa using read_cold_allfail size a addr (elem :: post) w img pre hm hu hr
    | true =>
      have ih := read_hot_allfail size a addr post w img (pre ++ [elem]) hm hu
        (fun e he => hr e (List.mem_cons_of_mem _ he))
      simp [hmap, hfail, ih]

/-- C8 (amended): when no section map or unmap operation fails during
the scan, a read in which no section entry yields a successful read
invokes the user callback and returns its result, and yields `NoMap`
when no callback is installed.  (A map/unmap failure is instead returned
directly, bypassing the callback — see the counterexample.) -/
theorem callback_fallback_amended (w : World) (img : PtImage) (size : Nat)
    (a : PtAsid) (addr : Nat)
    (hm : w.mapFail = []) (hu : w.unmapFail = [])
    (hr : ∀ e ∈ img.sections, pt_msec_read_mapped e.msec size a addr = .error .nomap) :
    (pt_image_read w img size (some a) addr).2.2 =
      pt_image_read_callback img size a addr ∧
    (pt_image_read w img size (some a) addr).2.1.sections = img.sections ∧
    (img.readmem = none →
      (pt_image_read w img size (some a) addr).2.2 = .error .nomap) := by
  have h := read_hot_allfail size a addr img.sections w img [] hm hu hr
  have e1 : (pt_image_read w img size (some a) addr).2.2 =
      pt_image_read_callback img size a addr := by
    simp [pt_image_read, h]
  have e2 : (pt_image_read w img size (some a) addr).2.1.sections = img.sections := by
    simp [pt_image_read, h]
  refine ⟨e1, e2, fun hcb => ?_⟩
  rw [e1]
  simp [pt_image_read_callback, hcb]

/-- An image whose only entry does not cover the probed address, with a
callback returning 99 bytes. -/
def callbackImg : PtImage :=
  { name := none
    sections := [⟨⟨⟨40, "/c", 0, 16⟩, asidC, 0x100⟩, false⟩]
    readmem := some (fun _ _ _ => .ok 99)
    cache := 10
    mapped := 0 }

/-- C8 witness: on a concrete image where the only entry cannot serve
the read, the read returns the callback's result (99 bytes). -/
theorem callback_fallback_witness :
    (pt_image_read w0 callbackImg 4 (some asidC) 0x9999).2.2 = .ok 99 :=
  (callback_fallback_amended w0 callbackImg 4 asidC 0x9999 rfl rfl
    (by decide)).1.trans rfl

/-! ## Cache pruning -/

/-- The sequence of unmap outcomes that the pruning scan encounters,
computed from the image state and the unmap schedule alone (the
specification-side mirror of the scan used to state which of the
encountered errors is reported). -/
def pruneUnmapResults (cache : Nat) :
    List (Option PtError) → List SectionEntry → Nat → List (Option PtError)
  | _, [], _ => []
  | sched, e :: rest, cnt =>
    if e.mapped = false then pruneUnmapResults cache sched rest cnt
    else
      let cnt1 := (cnt + 1) % u16
      if cnt1 ≤ cache then pruneUnmapResults cache sched rest cnt1
      else
        match sched with
        | [] => none :: pruneUnmapResults cache [] rest ((cnt1 + (u16 - 1)) % u16)
        | none :: s => none :: pruneUnmapResults cache s rest ((cnt1 + (u16 - 1)) % u16)
        | some er :: s => some er :: pruneUnmapResults cache s rest cnt1

/-- The status left after folding a sequence of unmap errors over an
initial remembered status, each error overwriting the previous one. -/
def lastErrOr : Option PtError → List PtError → Option PtError
  | st, [] => st
  | _, e :: rest => lastErrOr (some e) rest

theorem pruneLoop_status (cache : Nat) :
    ∀ (rest : List SectionEntry) (w : World) (acc : List SectionEntry)
      (cnt : Nat) (st : Option PtError),
      (pruneLoop cache w acc rest cnt st).2.2.2 =
        lastErrOr st ((pruneUnmapResults cache w.unmapFail rest cnt).filterMap id)
  | [], w, acc, cnt, st => by simp [pruneLoop, pruneUnmapResults, lastErrOr]
  | e :: rest, w, acc, cnt, st => by
    simp only [pruneLoop, pruneUnmapResults]
    cases he : e.mapped with
    | false =>
      simp only [he, if_pos rfl]
      exact pruneLoop_status cache rest w (acc ++ [e]) cnt st
    | true =>
      simp only [Bool.true_eq_false, if_false]
      by_cases hc : (cnt + 1) % u16 ≤ cache
      · simp only [if_pos hc]
        exact pruneLoop_status cache rest w (acc ++ [e]) ((cnt + 1) % u16) st
      · simp only [if_neg hc]
        rcases hsch : w.unmapFail with _ | ⟨o, s⟩
        · have hun : w.sectionUnmap e.msec.sec = (w, .ok ()) := by
            simp [World.sectionUnmap, hsch]
          simp only [hun]
          have := pruneLoop_status cache rest w (acc ++ [{ e with mapped := false }])
            (((cnt + 1) % u16 + (u16 - 1)) % u16) st
          rw [this, hsch]
          simp [List.filterMap_cons]
        · cases o with
          | none =>
            have hun : w.sectionUnmap e.msec.sec = ({ w with unmapFail := s }, .ok ()) := by
              simp [World.sectionUnmap, hsch]
            simp only [hun]
            have := pruneLoop_status cache rest { w with unmapFail := s }
              (acc ++ [{ e with mapped := false }]) (((cnt + 1) % u16 + (u16 - 1)) % u16) st
            rw [this]
            simp [List.filterMap_cons]
          | some er =>
            have hun : w.sectionUnmap e.msec.sec = ({ w with unmapFail := s }, .error er) := by
              simp [World.sectionUnmap, hsch]
            simp only [hun]
            have := pruneLoop_status cache rest { w with unmapFail := s }
              (acc ++ [e]) ((cnt + 1) % u16) (some er)
            rw [this]
            simp [List.filterMap_cons, lastErrOr]

theorem pruneLoop_count (cache : Nat) :
    ∀ (rest : List SectionEntry) (w : World) (acc : List SectionEntry)
      (cnt : Nat) (st : Option PtError),
      cnt = countMapped acc % u16 →
      (pruneLoop cache w acc rest cnt st).2.2.1 =
        countMapped (pruneLoop cache w acc rest cnt st).2.1 % u16
  | [], w, acc, cnt, st, h => by simpa [pruneLoop] using h
  | e :: rest, w, acc, cnt, st, h => by
    have h16 : u16 = 65536 := rfl
    simp only [pruneLoop]
    cases he : e.mapped with
    | false =>
      simp only [if_pos rfl]
      refine pruneLoop_count cache rest w (acc ++ [e]) cnt st ?_
      simp [countMapped, List.countP_append, List.countP_cons, he, h]
    | true =>
      simp only [Bool.true_eq_false, if_false]
      have hacc : countMapped (acc ++ [e]) = countMapped acc + 1 := by
        simp [countMapped, List.countP_append, List.countP_cons, he]
      by_cases hc : (cnt + 1) % u16 ≤ cache
      · simp only [if_pos hc]
        refine pruneLoop_count cache rest w (acc ++ [e]) ((cnt + 1) % u16) st ?_
        rw [hacc]
        subst h
        simp only [h16]
        omega
      · simp only [if_neg hc]
        rcases hun : w.sectionUnmap e.msec.sec with ⟨w1, r⟩
        cases r with
        | error er =>
          refine pruneLoop_count cache rest w1 (acc ++ [e]) ((cnt + 1) % u16) (some er) ?_
          rw [hacc]
          subst h
          simp only [h16]
          omega
        | ok u =>
          refine pruneLoop_count cache rest w1 (acc ++ [{ e with mapped := false }])
            (((cnt + 1) % u16 + (u16 - 1)) % u16) st ?_
          have hacc2 : countMapped (acc ++ [{ e with mapped := false }]) = countMapped acc := by
            simp [countMapped, List.countP_append, List.countP_cons]
          rw [hacc2]
          subst h
          simp only [h16]
          omega

theorem pruneLoop_msecs (cache : Nat) :
    ∀ (rest : List SectionEntry) (w : World) (acc : List SectionEntry)
      (cnt : Nat) (st : Option PtError),
      (pruneLoop cache w acc rest cnt st).2.1.map (·.msec) =
        (acc ++ rest).map (·.msec)
  | [], w, acc, cnt, st => by simp [pruneLoop]
  | e :: rest, w, acc, cnt, st => by
    simp only [pruneLoop]
    cases he : e.mapped with
    | false =>
      have ih := pruneLoop_msecs cache rest w (acc ++ [e]) cnt st
      simp [ih]
    | true =>
      by_cases hc : (cnt + 1) % u16 ≤ cache
      · have ih := pruneLoop_msecs cache rest w (acc ++ [e]) ((cnt + 1) % u16) st
        simp [hc, ih]
      · rcases hun : w.sectionUnmap e.msec.sec with ⟨w1, r⟩
        cases r with
        | error er =>
          have ih := pruneLoop_msecs cache rest w1 (acc ++ [e]) ((cnt + 1) % u16) (some er)
          simp [hc, hun, ih]
        | ok u =>
          have ih := pruneLoop_msecs cache rest w1 (acc ++ [{ e with mapped := false }])
            (((cnt + 1) % u16 + (u16 - 1)) % u16) st
          simp only [Nat.mod_add_mod] at ih
          simp [hc, hun, ih]

theorem prune_invR (w : World) (img : PtImage) :
    InvR (pt_image_prune_cache w img).2.1 := by
  have h := pruneLoop_count img.cache img.sections w [] 0 none rfl
  simp only [pt_image_prune_cache, InvR]
  simpa using h

/-- C6 (amended): pruning walks the whole list — it continues past unmap
failures — leaves the entries (and their order) intact apart from
cleared `mapped` flags, sets `R` to the final count of entries still
mapped (as a 16-bit quantity), and returns the LAST unmap error
encountered (success if no unmap failed); the first error is
overwritten by later ones. -/
theorem prune_cache_amended (w : World) (img : PtImage) :
    (pt_image_prune_cache w img).2.1.sections.map (·.msec) =
      img.sections.map (·.msec) ∧
    (pt_image_prune_cache w img).2.1.mapped =
      countMapped (pt_image_prune_cache w img).2.1.sections % u16 ∧
    (pt_image_prune_cache w img).2.2 =
      (match lastErrOr none
          ((pruneUnmapResults img.cache w.unmapFail img.sections 0).filterMap id) with
       | some e => Except.error e
       | none => Except.ok ()) := by
  refine ⟨?_, prune_invR w img, ?_⟩
  · have h := pruneLoop_msecs img.cache img.sections w [] 0 none
    simpa [pt_image_prune_cache] using h
  · have h := pruneLoop_status img.cache img.sections w [] 0 none
    simp only [pt_image_prune_cache]
    rw [← h]

/-! ## Residency invariant under read -/

theorem countMapped_append (l1 l2 : List SectionEntry) :
    countMapped (l1 ++ l2) = countMapped l1 + countMapped l2 :=
  List.countP_append _ _ _

theorem countMapped_middle (pre post : List SectionEntry) (e : SectionEntry) :
    countMapped (e :: (pre ++ post)) = countMapped (pre ++ e :: post) := by
  simp [countMapped, List.countP_append, List.countP_cons]
  omega

theorem read_cold_invR (size : Nat) (a : PtAsid) (addr : Nat) :
    ∀ (rest : List SectionEntry) (w : World) (img : PtImage) (pre : List SectionEntry),
      img.sections = pre ++ rest → InvR img →
      InvR (pt_image_read_cold size a addr w img pre rest).2.1
  | [], w, img, pre, hsec, hinv => by
    have : ({ img with sections := pre } : PtImage) = img := by
      rw [show pre = img.sections by simp [hsec]]
    simpa [pt_image_read_cold, this]
  | elem :: post, w, img, pre, hsec, hinv => by
    have hout : InvR { img with sections := pre ++ elem :: post } := by
      rw [← hsec]
      exact hinv
    have hprom : InvR { img with sections := elem :: (pre ++ post) } := by
      simpa [InvR, countMapped_middle pre post elem, ← hsec] using hinv
    simp only [pt_image_read_cold]
    cases hem : elem.mapped with
    | true =>
      cases hr : pt_msec_read_mapped elem.msec size a addr with
      | error e =>
        have ih := read_cold_invR size a addr post w img (pre ++ [elem])
          (by simpa using hsec) hinv
        simpa [hem, hr] using ih
      | ok n =>
        simpa [hem, hr] using hprom
    | false =>
      rcases hsm : w.sectionMap elem.msec.sec with ⟨w1, mres⟩
      cases mres with
      | error e =>
        simpa [hem, hsm] using hout
      | ok u =>
        cases hr : pt_msec_read_mapped elem.msec size a addr with
        | error e =>
          rcases hsu : w1.sectionUnmap elem.msec.sec with ⟨w2, ures⟩
          cases ures with
          | error e2 =>
            simpa [hem, hsm, hr, hsu] using hout
          | ok u2 =>
            have ih := read_cold_invR size a addr post w2 img (pre ++ [elem])
              (by simpa using hsec) hinv
            simpa [hem, hsm, hr, hsu] using ih
        | ok n =>
          by_cases hcz : img.cache ≠ 0
          · by_cases hlt : img.cache < (img.mapped + 1) % u16
            · have hp := prune_invR w1
                { img with
                  sections := { elem with mapped := true } :: (pre ++ post)
                  mapped := (img.mapped + 1) % u16 }
              rcases hpr : pt_image_prune_cache w1
                  { img with
                    sections := { elem with mapped := true } :: (pre ++ post)
                    mapped := (img.mapped + 1) % u16 } with ⟨w2, img2, pres⟩
              rw [hpr] at hp
              cases pres with
              | error e2 => simpa [hem, hsm, hr, hcz, hlt, hpr] using hp
              | ok u2 => simpa [hem, hsm, hr, hcz, hlt, hpr] using hp
            · have h16 : u16 = 65536 := rfl
              have hcnt : countMapped (pre ++ elem :: post) = countMapped (pre ++ post) := by
                simp [countMapped, List.countP_append, List.countP_cons, hem]
              have : InvR { img with
                  sections := { elem with mapped := true } :: (pre ++ post)
                  mapped := (img.mapped + 1) % u16 } := by
                have hm0 : img.mapped = countMapped (pre ++ post) % u16 := by
                  have := hinv
                  simp only [InvR, hsec, hcnt] at this
                  exact this
                simp only [InvR, countMapped, List.countP_cons]
                simp only [countMapped] at hm0
                simp [hm0, List.countP_cons, h16]
              simpa [hem, hsm, hr, hcz, hlt] using this
          · rcases hsu : w1.sectionUnmap elem.msec.sec with ⟨w2, ures⟩
            cases ures with
            | error e2 => simpa [hem, hsm, hr, hcz, hsu] using hprom
            | ok u2 => simpa [hem, hsm, hr, hcz, hsu] using hprom

theorem read_hot_invR (size : Nat) (a : PtAsid) (addr : Nat) :
    ∀ (rest : List SectionEntry) (w : World) (img : PtImage) (pre : List SectionEntry),
      img.sections = pre ++ rest → InvR img →
      InvR (pt_image_read_hot size a addr w img pre rest).2.1
  | [], w, img, pre, hsec, hinv => by
    simp only [pt_image_read_hot]
    exact read_cold_invR size a addr [] w img pre hsec hinv
  | elem :: post, w, img, pre, hsec, hinv => by
    simp only [pt_image_read_hot]
    cases hem : elem.mapped with
    | false =>
      simp only [hem]
      exact read_cold_invR size a addr (elem :: post) w img pre hsec hinv
    | true =>
      cases hr : pt_msec_read_mapped elem.msec size a addr with
      | error e =>
        have ih := read_hot_invR size a addr post w img (pre ++ [elem])
          (by simpa using hsec) hinv
        simpa [hem, hr] using ih
      | ok n =>
        have hprom : InvR { img with sections := elem :: (pre ++ post) } := by
          simpa [InvR, countMapped_middle pre post elem, ← hsec] using hinv
        simpa [hem, hr] using hprom

/-- C2 (amended): the residency equality `R = |{e : e.mapped}|` (as
16-bit arithmetic) holds after `init`, is re-established by every prune
(even a failing one), and is preserved by every read; it is NOT an
invariant of all reachable states — `add` (and `remove`) can break it by
unmapping and discarding mapped entries without updating `R`, as the
counterexample shows. -/
theorem residency_counter_amended :
    (∀ name : Option String, InvR (pt_image_init name)) ∧
    (∀ (w : World) (img : PtImage), InvR (pt_image_prune_cache w img).2.1) ∧
    (∀ (w : World) (img : PtImage) (size : Nat) (a : PtAsid) (addr : Nat),
      InvR img → InvR (pt_image_read w img size (some a) addr).2.1) := by
  refine ⟨fun name => by simp [pt_image_init, InvR, countMapped], prune_invR, ?_⟩
  intro w img size a addr hinv
  simp only [pt_image_read]
  exact read_hot_invR size a addr img.sections w img [] rfl hinv

/-- C2 witness: the read-preservation part applied to a concrete mapped
image (here the hot read succeeds and promotes; the invariant holds
afterwards). -/
theorem residency_counter_amended_witness :
    InvR (pt_image_read w0 oneMappedImg 4 (some asidC) 0x1000).2.1 :=
  residency_counter_amended.2.2 w0 oneMappedImg 4 asidC 0x1000 rfl

/-! ## Transactionality of add -/

theorem msecs_shift (kept rest removed : List SectionEntry) (cur cur' : SectionEntry)
    (hmse : cur'.msec = cur.msec) :
    ((kept ++ rest ++ (cur' :: removed)).map (·.msec)).Perm
      ((kept ++ (cur :: rest) ++ removed).map (·.msec)) := by
  simp only [List.map_append, List.map_cons, hmse, List.append_assoc, List.cons_append]
  exact List.Perm.append_left _ List.perm_middle

theorem addWalk_error_perm (asid : Option PtAsid) (fname : String) (bgn fin : Nat) :
    ∀ (rest : List SectionEntry) (w : World) (kept pending removed : List SectionEntry)
      (w' : World) (secs' : List SectionEntry) (e : PtError),
      addWalk asid fname bgn fin w kept rest pending removed = (w', secs', .error e) →
      (secs'.map (·.msec)).Perm ((kept ++ rest ++ removed).map (·.msec))
  | [], w, kept, pending, removed, w', secs', e, h => by
    rw [addWalk] at h
    injection h with h1 h23
    injection h23 with h2 h3
    simp at h3
  | current :: rest, w, kept, pending, removed, w', secs', e, h => by
    rw [addWalk] at h
    split at h
    · injection h with h1 h23
      injection h23 with h2 h3
      subst h2
      exact List.Perm.refl _
    · exact (addWalk_error_perm asid fname bgn fin rest w (kept ++ [current])
        pending removed w' secs' e h).trans (by simp)
    · by_cases hskip : fin ≤ pt_msec_begin current.msec ∨ pt_msec_end current.msec ≤ bgn
      · rw [if_pos hskip] at h
        exact (addWalk_error_perm asid fname bgn fin rest w (kept ++ [current])
          pending removed w' secs' e h).trans (by simp)
      · rw [if_neg hskip] at h
        by_cases hid : bgn = pt_msec_begin current.msec ∧ fin = pt_msec_end current.msec ∧
            fname = current.msec.sec.filename
        · rw [if_pos hid] at h
          by_cases hrp : removed ≠ [] ∨ pending.length ≠ 1
          · rw [if_pos hrp] at h
            injection h with h1 h23
            injection h23 with h2 h3
            subst h2
            exact List.Perm.refl _
          · rw [if_neg hrp] at h
            injection h with h1 h23
            injection h23 with h2 h3
            simp at h3
        · rw [if_neg hid] at h
          simp only at h
          split at h
          · injection h with h1 h23
            injection h23 with h2 h3
            subst h2
            exact msecs_shift kept rest removed current _ rfl
          · split at h
            · injection h with h1 h23
              injection h23 with h2 h3
              subst h2
              exact msecs_shift kept rest removed current _ rfl
            · rename_i w3 pending3 u3 heq2
              exact (addWalk_error_perm asid fname bgn fin rest w3 kept pending3
                ({ current with mapped := false } :: removed) w' secs' e h).trans
                (msecs_shift kept rest removed current _ rfl)

/-- C1 (amended): `pt_image_add` performs no partial insertion — on any
error the pending clones and the new entry are freed and every detached
entry is re-inserted, so the image holds exactly the same mapped
sections as before (as a multiset; detached entries are re-appended at
the tail with their `mapped` flags cleared), and the residency counter,
cache capacity and name are untouched.  It is not transactional in the
strict sense of the claim: list order and `mapped` flags may change (see
the counterexample). -/
theorem add_failure_preserves_entries (w : World) (img : PtImage) (sec : PtSection)
    (asid : Option PtAsid) (vaddr : Nat) (w' : World) (img' : PtImage) (e : PtError)
    (h : pt_image_add_core w img sec asid vaddr = (w', img', .error e)) :
    (img'.sections.map (·.msec)).Perm (img.sections.map (·.msec)) ∧
    img'.mapped = img.mapped ∧ img'.cache = img.cache ∧ img'.name = img.name := by
  simp only [pt_image_add_core, pt_mk_section_list] at h
  injection h with h1 h23
  injection h23 with h2 h3
  subst h2
  refine ⟨?_, rfl, rfl, rfl⟩
  have heq : addWalk asid sec.filename vaddr ((vaddr + sec.size) % u64) (w.getSec sec) []
      img.sections [⟨pt_msec_init sec asid vaddr, false⟩] [] =
      ((addWalk asid sec.filename vaddr ((vaddr + sec.size) % u64) (w.getSec sec) []
          img.sections [⟨pt_msec_init sec asid vaddr, false⟩] []).1,
       (addWalk asid sec.filename vaddr ((vaddr + sec.size) % u64) (w.getSec sec) []
          img.sections [⟨pt_msec_init sec asid vaddr, false⟩] []).2.1,
       .error e) := by
    rw [← h3]
  have hp := addWalk_error_perm asid sec.filename vaddr ((vaddr + sec.size) % u64)
    img.sections (w.getSec sec) [] [⟨pt_msec_init sec asid vaddr, false⟩] [] _ _ e heq
  simpa using hp

/-- C1 witness: the clone-failure add from the counterexample satisfies
the amended statement — the multiset of mapped sections is preserved and
the residency counter is untouched. -/
theorem add_failure_preserves_entries_witness :
    ((failedAdd.2.1.sections.map (·.msec)).Perm
      (oneMappedImg.sections.map (·.msec))) ∧
    failedAdd.2.1.mapped = oneMappedImg.mapped :=
  have h : pt_image_add_core { w0 with cloneFail := [some .nomem] } oneMappedImg
      ⟨21, "/y", 0, 0x400⟩ (some asidC) 0x1400 =
      (failedAdd.1, failedAdd.2.1, .error .nomem) := rfl
  ⟨(add_failure_preserves_entries _ _ _ _ _ _ _ _ h).1,
   (add_failure_preserves_entries _ _ _ _ _ _ _ _ h).2.1⟩

/-! ## The identical-overlap dedup of add -/

/-- An entry that the overlap walk of `add` skips: its ASID does not
match the add's ASID, or its address range does not intersect
`[bgn, fin)`. -/
def skipsAdd (a : PtAsid) (bgn fin : Nat) (e : SectionEntry) : Prop :=
  pt_asid_match e.msec.asid a = false ∨ fin ≤ pt_msec_begin e.msec ∨
    pt_msec_end e.msec ≤ bgn

instance (a : PtAsid) (bgn fin : Nat) (e : SectionEntry) :
    Decidable (skipsAdd a bgn fin e) :=
  inferInstanceAs (Decidable (_ ∨ _ ∨ _))

theorem addWalk_skips_leading (a : PtAsid) (fname : String) (bgn fin : Nat) :
    ∀ (P : List SectionEntry) (w : World) (kept rest pending removed : List SectionEntry),
      (∀ p ∈ P, skipsAdd a bgn fin p) →
      addWalk (some a) fname bgn fin w kept (P ++ rest) pending removed =
        addWalk (some a) fname bgn fin w (kept ++ P) rest pending removed
  | [], w, kept, rest, pending, removed, _ => by simp
  | p :: P', w, kept, rest, pending, removed, hP => by
    have hp := hP p (List.mem_cons_self _ _)
    have ih := addWalk_skips_leading a fname bgn fin P' w (kept ++ [p]) rest pending removed
      (fun q hq => hP q (List.mem_cons_of_mem _ hq))
    rcases hp with hm | hrange
    · rw [List.cons_append, addWalk]
      simp only [pt_msec_matches_asid, hm]
      rw [ih]
      simp
    · cases hm2 : pt_asid_match p.msec.asid a with
      | false =>
        rw [List.cons_append, addWalk]
        simp only [pt_msec_matches_asid, hm2]
        rw [ih]
        simp
      | true =>
        rw [List.cons_append, addWalk]
        simp only [pt_msec_matches_asid, hm2, if_pos hrange]
        rw [ih]
        simp

theorem addWalk_dedup_hit (a : PtAsid) (fname : String) (bgn fin : Nat)
    (E : SectionEntry) (hma : pt_asid_match E.msec.asid a = true)
    (hb : pt_msec_begin E.msec = bgn) (hend : pt_msec_end E.msec = fin)
    (hfn : E.msec.sec.filename = fname) (hlt : bgn < fin)
    (w : World) (kept rest : List SectionEntry) (N : SectionEntry) :
    addWalk (some a) fname bgn fin w kept (E :: rest) [N] [] =
      (pt_section_list_free w N, kept ++ (E :: rest), .ok ()) := by
  rw [addWalk]
  simp only [pt_msec_matches_asid, hma, hb, hend]
  rw [if_neg (by omega), if_pos ⟨trivial, trivial, hfn.symm⟩, if_neg (by simp)]
  rfl

/-- C9: the identical-overlap dedup of `pt_image_add` compares only the
virtual-address range and the filename — not the file offset.  Adding a
section with the same filename, vaddr and size as an existing entry `E`
(every earlier entry being skipped as non-matching or non-overlapping)
but a DIFFERENT file offset succeeds, leaves the list unchanged (`E`
stays, the new section is not inserted), and drops the call's reference
on the new section. -/
theorem dedup_ignores_offset (w : World) (img : PtImage) (sec : PtSection)
    (a : PtAsid) (vaddr : Nat) (P Q : List SectionEntry) (E : SectionEntry)
    (hsec : img.sections = P ++ E :: Q)
    (hP : ∀ p ∈ P, skipsAdd a vaddr ((vaddr + sec.size) % u64) p)
    (hma : pt_asid_match E.msec.asid a = true)
    (hb : pt_msec_begin E.msec = vaddr)
    (hend : pt_msec_end E.msec = (vaddr + sec.size) % u64)
    (hfn : E.msec.sec.filename = sec.filename)
    (hoff : E.msec.sec.offset ≠ sec.offset)
    (hsz : 0 < sec.size) (hwrap : vaddr + sec.size < u64) :
    (pt_image_add_core w img sec (some a) vaddr).2.2 = .ok () ∧
    (pt_image_add_core w img sec (some a) vaddr).2.1.sections = img.sections ∧
    (∀ i, (pt_image_add_core w img sec (some a) vaddr).1.rc i = w.rc i) := by
  have hlt : vaddr < (vaddr + sec.size) % u64 := by
    rw [Nat.mod_eq_of_lt hwrap]
    omega
  have hwalk :
      addWalk (some a) sec.filename vaddr ((vaddr + sec.size) % u64) (w.getSec sec) []
        (P ++ E :: Q) [⟨pt_msec_init sec (some a) vaddr, false⟩] [] =
      (pt_section_list_free (w.getSec sec) ⟨pt_msec_init sec (some a) vaddr, false⟩,
       P ++ (E :: Q), .ok ()) := by
    rw [addWalk_skips_leading a sec.filename vaddr ((vaddr + sec.size) % u64) P
      (w.getSec sec) [] (E :: Q) _ _ hP]
    rw [show ([] : List SectionEntry) ++ P = P from by simp]
    exact addWalk_dedup_hit a sec.filename vaddr ((vaddr + sec.size) % u64) E hma hb hend
      hfn hlt (w.getSec sec) P Q _
  refine ⟨?_, ?_, ?_⟩
  · simp [pt_image_add_core, pt_mk_section_list, hsec, hwalk]
  · simp [pt_image_add_core, pt_mk_section_list, hsec, hwalk]
  · intro i
    simp only [pt_image_add_core, pt_mk_section_list, hsec, hwalk]
    simp only [pt_section_list_free, World.getSec, World.putSec, pt_msec_init]
    by_cases hi : i = sec.id
    · simp [hi]
    · simp [hi]

/-- The existing entry for the C9 witness: `/a` with file offset 0x10. -/
def dedupImg : PtImage :=
  { name := none
    sections := [⟨⟨⟨60, "/a", 0x10, 0x100⟩, asidC, 0x4000⟩, false⟩]
    readmem := none
    cache := 10
    mapped := 0 }

/-- C9 witness: adding `/a` with the same vaddr and size but file offset
0 (the entry has 0x10) succeeds and leaves the image unchanged; the
reference taken by the call is dropped again. -/
theorem dedup_ignores_offset_witness :
    (pt_image_add_core w0 dedupImg ⟨61, "/a", 0, 0x100⟩ (some asidC) 0x4000).2.2 = .ok () ∧
    (pt_image_add_core w0 dedupImg ⟨61, "/a", 0, 0x100⟩ (some asidC) 0x4000).2.1.sections =
      dedupImg.sections ∧
    (pt_image_add_core w0 dedupImg ⟨61, "/a", 0, 0x100⟩ (some asidC) 0x4000).1.rc 61 =
      w0.rc 61 :=
  have h := dedup_ignores_offset w0 dedupImg ⟨61, "/a", 0, 0x100⟩ asidC 0x4000 []
    [] ⟨⟨⟨60, "/a", 0x10, 0x100⟩, asidC, 0x4000⟩, false⟩ rfl (by simp) (by decide)
    (by decide) (by decide) (by decide) (by decide) (by decide) (by decide)
  ⟨h.1, h.2.1, h.2.2 61⟩

/-! ## Success characterization of the overlap walk -/

theorem pt_asid_match_self (x : PtAsid) : pt_asid_match x x = true := by
  cases x with
  | mk c v => cases c <;> cases v <;> simp [pt_asid_match, ptAsidFieldMatch]

/-- An entry on which the walk's identical-overlap dedup fires for an
add of filename `fname` over `[bgn, fin)` in ASID `a`. -/
def dedupableE (a : PtAsid) (fname : String) (bgn fin : Nat) (E : SectionEntry) : Prop :=
  pt_asid_match E.msec.asid a = true ∧ pt_msec_begin E.msec = bgn ∧
    pt_msec_end E.msec = fin ∧ E.msec.sec.filename = fname

/-- Entries overlapping the added region in a matching ASID (the
"entries for that region" counted by the idempotence claim). -/
def overlapsAdd (a : PtAsid) (bgn fin : Nat) (e : SectionEntry) : Bool :=
  pt_asid_match e.msec.asid a && decide (pt_msec_begin e.msec < fin) &&
    decide (bgn < pt_msec_end e.msec)

/-- Pairwise disjointness of the address ranges of entries whose ASIDs
both match `a` (invariant 1 of the spec, relativized to the add's ASID). -/
def matchDisjoint (a : PtAsid) (e f : SectionEntry) : Prop :=
  pt_asid_match e.msec.asid a = true → pt_asid_match f.msec.asid a = true →
    (pt_msec_end e.msec ≤ pt_msec_begin f.msec ∨ pt_msec_end f.msec ≤ pt_msec_begin e.msec)

theorem skipsAdd_not_overlaps (a : PtAsid) (bgn fin : Nat) (e : SectionEntry)
    (h : skipsAdd a bgn fin e) : overlapsAdd a bgn fin e = false := by
  rcases h with hm | hr | hr
  · simp [overlapsAdd, hm]
  · have hnl : ¬ pt_msec_begin e.msec < fin := by omega
    simp [overlapsAdd, hnl]
  · have hnl : ¬ bgn < pt_msec_end e.msec := by omega
    simp [overlapsAdd, hnl]

theorem dedupableE_overlaps (a : PtAsid) (fname : String) (bgn fin : Nat)
    (E : SectionEntry) (hlt : bgn < fin) (h : dedupableE a fname bgn fin E) :
    overlapsAdd a bgn fin E = true := by
  obtain ⟨hm, hb, he, -⟩ := h
  simp [overlapsAdd, hm, hb, he, hlt]

theorem clone_result (w : World) (pending : List SectionEntry) (msec : PtMappedSection)
    (b fin2 : Nat) (w2 : World) (pending2 : List SectionEntry) (u : Unit)
    (h : pt_image_clone w pending msec b fin2 = (w2, pending2, .ok u)) :
    ∃ entry : SectionEntry, pending2 = entry :: pending ∧
      pt_msec_begin entry.msec = b ∧ pt_msec_end entry.msec = fin2 % u64 ∧
      entry.mapped = false := by
  rw [pt_image_clone] at h
  split at h
  · exact absurd h (by simp)
  · rename_i hble
    split at h
    · exact absurd h (by simp)
    · simp only [pt_mk_section_list] at h
      split at h
      · exact absurd h (by simp)
      · rename_i w1 nsec heq
        rw [World.sectionClone] at heq
        have hnsz : nsec.size = fin2 - b := by
          split at heq
          · exact absurd heq (by simp)
          · injection heq with hq1 hq2
            injection hq2 with hq2
            rw [← hq2]
          · injection heq with hq1 hq2
            injection hq2 with hq2
            rw [← hq2]
        injection h with h1 h23
        injection h23 with h2 h3
        refine ⟨_, h2.symm, rfl, ?_, rfl⟩
        simp only [pt_msec_init, pt_msec_end, pt_msec_begin, hnsz]
        congr 1
        omega

theorem addWalk_ok_dedup_state (a : PtAsid) (fname : String) (bgn fin : Nat)
    (hlt : bgn < fin) :
    ∀ (rest : List SectionEntry) (w : World) (kept cs removed : List SectionEntry)
      (N : SectionEntry) (w' : World) (secs' : List SectionEntry),
      addWalk (some a) fname bgn fin w kept rest (cs ++ [N]) removed = (w', secs', .ok ()) →
      (∀ p ∈ kept, skipsAdd a bgn fin p) →
      (∀ c ∈ cs, skipsAdd a bgn fin c) →
      dedupableE a fname bgn fin N →
      List.Pairwise (matchDisjoint a) rest →
      (∃ P E Q, secs' = P ++ E :: Q ∧ (∀ p ∈ P, skipsAdd a bgn fin p) ∧
        dedupableE a fname bgn fin E) ∧
      secs'.countP (overlapsAdd a bgn fin) = 1
  | [], w, kept, cs, removed, N, w', secs', h, hkept, hcs, hN, hpw => by
    rw [addWalk] at h
    injection h with h1 h23
    injection h23 with h2 h3
    constructor
    · refine ⟨kept ++ cs, N, [], by rw [← h2]; simp, ?_, hN⟩
      intro p hp
      rcases List.mem_append.mp hp with hk | hc
      exacts [hkept p hk, hcs p hc]
    · rw [← h2]
      have hk0 : kept.countP (overlapsAdd a bgn fin) = 0 :=
        List.countP_eq_zero.mpr fun p hp => by
          simp [skipsAdd_not_overlaps a bgn fin p (hkept p hp)]
      have hc0 : cs.countP (overlapsAdd a bgn fin) = 0 :=
        List.countP_eq_zero.mpr fun p hp => by
          simp [skipsAdd_not_overlaps a bgn fin p (hcs p hp)]
      have hN1 : overlapsAdd a bgn fin N = true := dedupableE_overlaps a fname bgn fin N hlt hN
      simp [List.countP_append, List.countP_cons, hk0, hc0, hN1]
  | current :: rest, w, kept, cs, removed, N, w', secs', h, hkept, hcs, hN, hpw => by
    have hpwt : List.Pairwise (matchDisjoint a) rest := (List.pairwise_cons.mp hpw).2
    rw [addWalk] at h
    split at h
    · rename_i e1 heq
      simp [pt_msec_matches_asid] at heq
    · rename_i heq
      have hm : pt_asid_match current.msec.asid a = false := by
        simpa [pt_msec_matches_asid] using heq
      refine addWalk_ok_dedup_state a fname bgn fin hlt rest w (kept ++ [current]) cs
        removed N w' secs' h ?_ hcs hN hpwt
      intro p hp
      rcases List.mem_append.mp hp with hk | hc
      · exact hkept p hk
      · rw [List.mem_singleton.mp hc]
        exact Or.inl hm
    · rename_i heq
      have hmt : pt_asid_match current.msec.asid a = true := by
        simpa [pt_msec_matches_asid] using heq
      by_cases hskip : fin ≤ pt_msec_begin current.msec ∨ pt_msec_end current.msec ≤ bgn
      · rw [if_pos hskip] at h
        refine addWalk_ok_dedup_state a fname bgn fin hlt rest w (kept ++ [current]) cs
          removed N w' secs' h ?_ hcs hN hpwt
        intro p hp
        rcases List.mem_append.mp hp with hk | hc
        · exact hkept p hk
        · rw [List.mem_singleton.mp hc]
          exact Or.inr hskip
      · rw [if_neg hskip] at h
        by_cases hid : bgn = pt_msec_begin current.msec ∧ fin = pt_msec_end current.msec ∧
            fname = current.msec.sec.filename
        · rw [if_pos hid] at h
          by_cases hrp : removed ≠ [] ∨ (cs ++ [N]).length ≠ 1
          · rw [if_pos hrp] at h
            exact absurd h (by simp)
          · rw [if_neg hrp] at h
            injection h with h1 h23
            injection h23 with h2 h3
            have hEd : dedupableE a fname bgn fin current :=
              ⟨hmt, hid.1.symm, hid.2.1.symm, hid.2.2.symm⟩
            constructor
            · exact ⟨kept, current, rest, h2.symm, hkept, hEd⟩
            · rw [← h2]
              have hk0 : kept.countP (overlapsAdd a bgn fin) = 0 :=
                List.countP_eq_zero.mpr fun p hp => by
                  simp [skipsAdd_not_overlaps a bgn fin p (hkept p hp)]
              have hr0 : rest.countP (overlapsAdd a bgn fin) = 0 := by
                refine List.countP_eq_zero.mpr fun q hq => ?_
                by_cases hmq : pt_asid_match q.msec.asid a = true
                · have hd := (List.pairwise_cons.mp hpw).1 q hq hmt hmq
                  have : skipsAdd a bgn fin q := by
                    rcases hd with hd | hd
                    · exact Or.inr (Or.inl (by omega))
                    · exact Or.inr (Or.inr (by omega))
                  simp [skipsAdd_not_overlaps a bgn fin q this]
                · have : skipsAdd a bgn fin q :=
                    Or.inl (by simpa using hmq)
                  simp [skipsAdd_not_overlaps a bgn fin q this]
              have hcur : overlapsAdd a bgn fin current = true :=
                dedupableE_overlaps a fname bgn fin current hlt hEd
              simp [List.countP_append, List.countP_cons, hk0, hr0, hcur]
        · rw [if_neg hid] at h
          simp only at h
          split at h
          · exact absurd h (by simp)
          · rename_i w2 pending2 u2 heq1
            split at h
            · exact absurd h (by simp)
            · rename_i w3 pending3 u3 heq2
              have hstep2 : ∃ cs2, pending2 = cs2 ++ [N] ∧
                  ∀ c ∈ cs2, skipsAdd a bgn fin c := by
                by_cases hcl : pt_msec_begin current.msec < bgn
                · rw [if_pos hcl] at heq1
                  obtain ⟨entry, hpe, hbe, hee, -⟩ := clone_result _ _ _ _ _ _ _ _ heq1
                  refine ⟨entry :: cs, by simp [hpe], ?_⟩
                  intro c hc
                  rcases List.mem_cons.mp hc with hc | hc
                  · subst hc
                    refine Or.inr (Or.inr ?_)
                    rw [hee]
                    exact Nat.mod_le _ _
                  · exact hcs c hc
                · rw [if_neg hcl] at heq1
                  injection heq1 with q1 q23
                  injection q23 with q2 q3
                  exact ⟨cs, q2.symm, hcs⟩
              obtain ⟨cs2, hpe2, hcs2⟩ := hstep2
              rw [hpe2] at heq2
              have hstep3 : ∃ cs3, pending3 = cs3 ++ [N] ∧
                  ∀ c ∈ cs3, skipsAdd a bgn fin c := by
                by_cases hcr : fin < pt_msec_end current.msec
                · rw [if_pos hcr] at heq2
                  obtain ⟨entry, hpe, hbe, hee, -⟩ := clone_result _ _ _ _ _ _ _ _ heq2
                  refine ⟨entry :: cs2, by simp [hpe], ?_⟩
                  intro c hc
                  rcases List.mem_cons.mp hc with hc | hc
                  · subst hc
                    exact Or.inr (Or.inl (le_of_eq hbe.symm))
                  · exact hcs2 c hc
                · rw [if_neg hcr] at heq2
                  injection heq2 with q1 q23
                  injection q23 with q2 q3
                  exact ⟨cs2, q2.symm, hcs2⟩
              obtain ⟨cs3, hpe3, hcs3⟩ := hstep3
              rw [hpe3] at h
              exact addWalk_ok_dedup_state a fname bgn fin hlt rest w3 kept cs3
                ({ current with mapped := false } :: removed) N w' secs' h hkept hcs3 hN hpwt

/-- C4: idempotence of add.  If the image's matching entries are
pairwise disjoint and an `add(sec, a, vaddr)` succeeds, then a second
add with the same filename, offset, size, ASID and vaddr returns
success, leaves the section list unchanged, drops the second call's
reference on its section (no leak), and the image holds exactly one
entry overlapping `[vaddr, vaddr + size)` in the matching ASID. -/
theorem add_idempotent (w : World) (img : PtImage) (sec sec2 : PtSection)
    (a : PtAsid) (vaddr : Nat) (w1 : World) (img1 : PtImage)
    (hpw : List.Pairwise (matchDisjoint a) img.sections)
    (hsz : 0 < sec.size) (hwrap : vaddr + sec.size < u64)
    (hfn : sec2.filename = sec.filename) (hoff : sec2.offset = sec.offset)
    (hs2 : sec2.size = sec.size)
    (h1 : pt_image_add_core w img sec (some a) vaddr = (w1, img1, .ok ())) :
    (pt_image_add_core w1 img1 sec2 (some a) vaddr).2.2 = .ok () ∧
    (pt_image_add_core w1 img1 sec2 (some a) vaddr).2.1.sections = img1.sections ∧
    (∀ i, (pt_image_add_core w1 img1 sec2 (some a) vaddr).1.rc i = w1.rc i) ∧
    img1.sections.countP (overlapsAdd a vaddr ((vaddr + sec.size) % u64)) = 1 := by
  have hlt : vaddr < (vaddr + sec.size) % u64 := by
    rw [Nat.mod_eq_of_lt hwrap]
    omega
  simp only [pt_image_add_core, pt_mk_section_list] at h1 ⊢
  rcases hA : addWalk (some a) sec.filename vaddr ((vaddr + sec.size) % u64) (w.getSec sec)
      [] img.sections [⟨pt_msec_init sec (some a) vaddr, false⟩] [] with ⟨wA, secsA, resA⟩
  rw [hA] at h1
  injection h1 with e1 e23
  injection e23 with e2 e3
  subst e1
  subst e2
  subst e3
  have hN : dedupableE a sec.filename vaddr ((vaddr + sec.size) % u64)
      ⟨pt_msec_init sec (some a) vaddr, false⟩ := by
    refine ⟨?_, rfl, rfl, rfl⟩
    simp [pt_msec_init, pt_asid_match_self]
  obtain ⟨⟨P, E, Q, hPEQ, hPs, hEd⟩, hcount⟩ :=
    addWalk_ok_dedup_state a sec.filename vaddr ((vaddr + sec.size) % u64) hlt
      img.sections (w.getSec sec) [] [] []
      ⟨pt_msec_init sec (some a) vaddr, false⟩ wA secsA hA
      (by simp) (by simp) hN hpw
  have hwalk2 : addWalk (some a) sec2.filename vaddr ((vaddr + sec2.size) % u64)
      (wA.getSec sec2) [] (P ++ E :: Q) [⟨pt_msec_init sec2 (some a) vaddr, false⟩] [] =
      (pt_section_list_free (wA.getSec sec2) ⟨pt_msec_init sec2 (some a) vaddr, false⟩,
       P ++ E :: Q, .ok ()) := by
    rw [hs2]
    rw [addWalk_skips_leading a sec2.filename vaddr ((vaddr + sec.size) % u64) P
      (wA.getSec sec2) [] (E :: Q) _ _ hPs]
    rw [show ([] : List SectionEntry) ++ P = P from by simp]
    exact addWalk_dedup_hit a sec2.filename vaddr ((vaddr + sec.size) % u64) E hEd.1
      hEd.2.1 hEd.2.2.1 (hEd.2.2.2.trans hfn.symm) hlt (wA.getSec sec2) P Q _
  refine ⟨?_, ?_, ?_, ?_⟩
  · simp [hPEQ, hwalk2]
  · simp [hPEQ, hwalk2]
  · intro i
    simp only [hPEQ, hwalk2]
    simp only [pt_section_list_free, World.getSec, World.putSec, pt_msec_init]
    by_cases hi : i = sec2.id
    · simp [hi]
    · simp [hi]
  · exact hcount

/-- The section added twice in the C4 witness. -/
def idemSec : PtSection := ⟨70, "/w", 0, 0x100⟩

/-- The first add of the C4 witness, on a fresh empty image. -/
def idemAdd1 : World × PtImage × Except PtError Unit :=
  pt_image_add_core w0 (pt_image_init none) idemSec (some asidC) 0x7000

/-- C4 witness: on a concrete empty image, adding the same section twice
leaves one entry; the second add succeeds, changes nothing, and restores
the section's refcount. -/
theorem add_idempotent_witness :
    (pt_image_add_core idemAdd1.1 idemAdd1.2.1 idemSec (some asidC) 0x7000).2.2 = .ok () ∧
    (pt_image_add_core idemAdd1.1 idemAdd1.2.1 idemSec (some asidC) 0x7000).2.1.sections =
      idemAdd1.2.1.sections ∧
    (pt_image_add_core idemAdd1.1 idemAdd1.2.1 idemSec (some asidC) 0x7000).1.rc 70 =
      idemAdd1.1.rc 70 ∧
    idemAdd1.2.1.sections.countP (overlapsAdd asidC 0x7000 ((0x7000 + idemSec.size) % u64)) =
      1 :=
  have h := add_idempotent w0 (pt_image_init none) idemSec idemSec asidC 0x7000
    idemAdd1.1 idemAdd1.2.1 List.Pairwise.nil (by decide)
    (by decide) rfl rfl rfl rfl
  ⟨h.1, h.2.1, h.2.2.1 70, h.2.2.2⟩
